import Mathlib

/-!
Verification of the Botcraft behaviour-tree engine, inventory manager and
protocol codec against their natural-language specification.

The development shallowly embeds the C++ sources:
* `botcraft/include/botcraft/AI/BehaviourTree.hpp` — the behaviour tree
  engine (Status, Sequence, Selector, Inverter, Succeeder, Repeater);
* `botcraft/src/Game/Inventory/InventoryManager.cpp` — the inventory
  manager and its message handlers;
* `protocolCraft` headers — the ServerboundKeyPacket, SaltSignature and
  SelectTrade read/write routines.

Machine integers are modelled as `Nat`/`Int` with explicit reductions
modulo `2 ^ w` where wrap-around matters (the Repeater counter is a
`size_t`; VarInt reinterprets through 32-bit two's complement).
-/

namespace Botcraft

namespace AI

/-- The three-valued tick result of `BehaviourTree.hpp`. -/
inductive Status where
  | Failure : Status
  | Running : Status
  | Success : Status
deriving DecidableEq, Repr

/--
The mutable per-node state of a behaviour-tree node.  In the C++ source a
`Composite` stores a resume iterator into its child vector and a `Repeater`
stores a `size_t` counter; every node also owns the states of its children.
This type externalises exactly those mutable members (the spec itself notes
that an implementation may "externalise the cursor into the context").
`leaf` is the state of a node with no mutable members.
-/
inductive NodeState where
  | leaf : NodeState
  | composite (cursor : Nat) (children : List NodeState) : NodeState
  | decorator (child : NodeState) : NodeState
  | rep (counter : Nat) (child : NodeState) : NodeState
deriving Repr

/--
A behaviour-tree node, as in the C++ `Node<Context>` interface: a single
virtual operation `Tick(context) → Status`, here made state-passing over
the externalised `NodeState`.  Arbitrary user-defined nodes are any value
of this type.
-/
structure BTNode (C : Type) where
  tickFn : NodeState → C → Status × NodeState

/-- Fallback tick used for an out-of-range child access (unreachable for a
well-formed composite, whose state list matches its child list). -/
def defaultTick {C : Type} : NodeState → C → Status × NodeState :=
  fun st _ => (Status.Failure, st)

/-- `Leaf<Context>`: wraps a function from context to `Status`; the node
has no mutable state. -/
def Leaf {C : Type} (func : C → Status) : BTNode C :=
  ⟨fun st c => (func c, st)⟩

/--
The loop of `Sequence::Tick`: `while (it != children.end())`, tick the
child at the iterator; on Failure reset the iterator to begin and return
Failure, on Running return Running leaving the iterator at that child, on
Success advance the iterator; if the iterator reaches the end, reset it
and return Success.  The first `Nat` argument is the number of children
still ahead of the iterator (zero exactly when `it == children.end()`).
-/
def seqLoop {C : Type} (ticks : List (NodeState → C → Status × NodeState)) :
    Nat → List NodeState → Nat → C → Status × (Nat × List NodeState)
  | 0, sts, _, _ => (Status.Success, (0, sts))
  | k + 1, sts, i, c =>
    let r := (ticks.getD i defaultTick) (sts.getD i NodeState.leaf) c
    let sts2 := sts.set i r.2
    match r.1 with
    | Status.Failure => (Status.Failure, (0, sts2))
    | Status.Running => (Status.Running, (i, sts2))
    | Status.Success => seqLoop ticks k sts2 (i + 1) c

/--
The loop of `Selector::Tick`: mirror image of the sequence loop — on
Failure advance, on Running return Running, on Success reset the iterator
and return Success; at the end reset and return Failure.
-/
def selLoop {C : Type} (ticks : List (NodeState → C → Status × NodeState)) :
    Nat → List NodeState → Nat → C → Status × (Nat × List NodeState)
  | 0, sts, _, _ => (Status.Failure, (0, sts))
  | k + 1, sts, i, c =>
    let r := (ticks.getD i defaultTick) (sts.getD i NodeState.leaf) c
    let sts2 := sts.set i r.2
    match r.1 with
    | Status.Failure => selLoop ticks k sts2 (i + 1) c
    | Status.Running => (Status.Running, (i, sts2))
    | Status.Success => (Status.Success, (0, sts2))

/-- `Sequence<Context>`: run children from the resume cursor until one
fails; succeeds if all children succeed. -/
def Sequence {C : Type} (children : List (BTNode C)) : BTNode C :=
  ⟨fun st c =>
    match st with
    | NodeState.composite i sts =>
      let r := seqLoop (children.map BTNode.tickFn) (children.length - i) sts i c
      (r.1, NodeState.composite r.2.1 r.2.2)
    | st => (Status.Failure, st)⟩

/-- `Selector<Context>`: run children from the resume cursor until one
succeeds; fails if all children fail. -/
def Selector {C : Type} (children : List (BTNode C)) : BTNode C :=
  ⟨fun st c =>
    match st with
    | NodeState.composite i sts =>
      let r := selLoop (children.map BTNode.tickFn) (children.length - i) sts i c
      (r.1, NodeState.composite r.2.1 r.2.2)
    | st => (Status.Failure, st)⟩

/-- The `switch` of `Inverter::Tick`: Failure becomes Success, Success
becomes Failure, Running passes through. -/
def invertStatus : Status → Status
  | Status.Failure => Status.Success
  | Status.Running => Status.Running
  | Status.Success => Status.Failure

/-- `Inverter<Context>`: inverts the result of its child. -/
def Inverter {C : Type} (child : BTNode C) : BTNode C :=
  ⟨fun st c =>
    match st with
    | NodeState.decorator cst =>
      let r := child.tickFn cst c
      (invertStatus r.1, NodeState.decorator r.2)
    | st => (Status.Failure, st)⟩

/-- `Succeeder<Context>`: returns Success whether its child succeeds or
fails; Running passes through. -/
def Succeeder {C : Type} (child : BTNode C) : BTNode C :=
  ⟨fun st c =>
    match st with
    | NodeState.decorator cst =>
      let r := child.tickFn cst c
      (match r.1 with
       | Status.Failure => Status.Success
       | Status.Running => Status.Running
       | Status.Success => Status.Success, NodeState.decorator r.2)
    | st => (Status.Failure, st)⟩

/--
`Repeater<Context>`: on child Failure the `size_t` counter is incremented
(wrapping modulo `2 ^ 64`) and compared against `n`; equality resets the
counter and returns Failure, otherwise Running; child Running passes
through; child Success resets the counter and returns Success.
-/
def Repeater {C : Type} (n : Nat) (child : BTNode C) : BTNode C :=
  ⟨fun st c =>
    match st with
    | NodeState.rep counter cst =>
      let r := child.tickFn cst c
      match r.1 with
      | Status.Failure =>
        let counter2 := (counter + 1) % 2 ^ 64
        if counter2 = n then (Status.Failure, NodeState.rep 0 r.2)
        else (Status.Running, NodeState.rep counter2 r.2)
      | Status.Running => (Status.Running, NodeState.rep counter r.2)
      | Status.Success => (Status.Success, NodeState.rep 0 r.2)
    | st => (Status.Failure, st)⟩

/-- Tick a node once per context in the list, threading its state; returns
the trace of statuses together with the final state. -/
def run {C : Type} (node : BTNode C) : NodeState → List C → List Status × NodeState
  | st, [] => ([], st)
  | st, c :: cl =>
    let r := node.tickFn st c
    let rest := run node r.2 cl
    (r.1 :: rest.1, rest.2)

/--
The Sequence tick behaviour as the specification words it: starting from
the resume cursor, tick children in order; on Failure, reset the cursor to
the beginning and return Failure; on Running, return Running with the
cursor still at that child; on Success, advance the cursor and continue;
when the cursor passes the last child, reset it to the beginning and
return Success.  Each child along the way is ticked exactly once.
-/
def seqSpecLoop {C : Type} (children : List (BTNode C)) (sts : List NodeState) (i : Nat)
    (c : C) : Status × (Nat × List NodeState) :=
  if h : i < children.length then
    let r := children[i].tickFn (sts.getD i NodeState.leaf) c
    match r.1 with
    | Status.Failure => (Status.Failure, (0, sts.set i r.2))
    | Status.Running => (Status.Running, (i, sts.set i r.2))
    | Status.Success => seqSpecLoop children (sts.set i r.2) (i + 1) c
  else (Status.Success, (0, sts))
termination_by children.length - i

/-- A child node that counts in its own state how many times it has been
ticked, returning Running on its first tick and Success afterwards. -/
def countingChild : BTNode Unit :=
  ⟨fun st _ =>
    match st with
    | NodeState.composite k [] =>
      (if k = 0 then Status.Running else Status.Success, NodeState.composite (k + 1) [])
    | st => (Status.Failure, st)⟩

end AI

/-!
Inventory manager (`InventoryManager.cpp`).  The `Slot` class and the
`Inventory` header are not part of the sampled sources; per the spec a
Slot is an opaque item-stack value compared by value whose
default-constructed value denotes empty, and an Inventory is an ordered
sparse mapping from slot index to Slot.  The development is generic over
the slot type `S`, with an explicit `empty : S` standing for `Slot()`.
-/

/-- Modelled from the spec: an Inventory is an ordered sparse mapping from
slot index to Slot (the `Inventory` header with its `std::map<short, Slot>`
is not among the sampled sources). -/
structure Inventory (S : Type) where
  slots : Int → Option S

/-- Modelled from the spec: `Inventory::GetSlot` — the slot stored at the
index, or the empty slot for an index absent from the sparse map. -/
def Inventory.GetSlot {S : Type} (empty : S) (inv : Inventory S) (index : Int) : S :=
  (inv.slots index).getD empty

/-- Modelled from the spec: `Inventory::PLAYER_INVENTORY_INDEX`, the
distinguished window id that always denotes the player inventory.  Its
defining header is not among the sampled sources; no claim depends on the
numeric value. -/
def PLAYER_INVENTORY_INDEX : Int := 0

/-- Modelled from the spec: `Inventory::INVENTORY_HOTBAR_START`, the first
index of the nine-slot hotbar range of the player inventory.  Its defining
header is not among the sampled sources; no claim depends on the numeric
value. -/
def INVENTORY_HOTBAR_START : Int := 36

/-- The state owned by `InventoryManager`: the window-id-to-inventory map,
the cursor slot and the selected hotbar index. -/
structure InventoryManager (S : Type) where
  inventories : Int → Option (Inventory S)
  cursor : S
  index_hotbar_selected : Int

/-- `InventoryManager::InventoryManager()`: no inventories, empty cursor
slot, hotbar index 0. -/
def InventoryManager.init {S : Type} (empty : S) : InventoryManager S :=
  ⟨fun _ => none, empty, 0⟩

/-- `InventoryManager::SetSlot`: store the slot at the index of the window's
inventory, creating a fresh inventory holding only that slot when the
window id is not yet mapped. -/
def InventoryManager.SetSlot {S : Type} (m : InventoryManager S)
    (window_id index : Int) (slot : S) : InventoryManager S :=
  match m.inventories window_id with
  | none =>
    { m with inventories := fun w =>
        if w = window_id then some ⟨fun i => if i = index then some slot else none⟩
        else m.inventories w }
  | some inv =>
    { m with inventories := fun w =>
        if w = window_id then some ⟨fun i => if i = index then some slot else inv.slots i⟩
        else m.inventories w }

/-- `InventoryManager::GetInventory`: the inventory mapped to the window
id, or null when absent. -/
def InventoryManager.GetInventory {S : Type} (m : InventoryManager S)
    (window_id : Int) : Option (Inventory S) :=
  m.inventories window_id

/-- `InventoryManager::GetPlayerInventory`. -/
def InventoryManager.GetPlayerInventory {S : Type} (m : InventoryManager S) :
    Option (Inventory S) :=
  m.GetInventory PLAYER_INVENTORY_INDEX

/--
`InventoryManager::GetHotbarSelected` as the source writes it: when the
player inventory is absent it returns `Slot()`; when the player inventory
is present it evaluates `GetSlot(INVENTORY_HOTBAR_START +
index_hotbar_selected)` but never returns the value — control falls off
the end of the value-returning function, so no value is produced
(undefined behaviour in C++), modelled here as `none`.
-/
def InventoryManager.GetHotbarSelected {S : Type} (empty : S)
    (m : InventoryManager S) : Option S :=
  match m.GetPlayerInventory with
  | none => some empty
  | some _ => none

/-- Modelled from the spec: the intended `GetHotbarSelected` — the slot at
`INVENTORY_HOTBAR_START + index_hotbar_selected` of the player inventory
when it exists, otherwise the empty slot. -/
def InventoryManager.GetHotbarSelectedSpec {S : Type} (empty : S)
    (m : InventoryManager S) : S :=
  match m.GetPlayerInventory with
  | none => empty
  | some inv => inv.GetSlot empty (INVENTORY_HOTBAR_START + m.index_hotbar_selected)

/-- `InventoryManager::EraseInventory`. -/
def InventoryManager.EraseInventory {S : Type} (m : InventoryManager S)
    (window_id : Int) : InventoryManager S :=
  { m with inventories := fun w => if w = window_id then none else m.inventories w }

/-- `InventoryManager::AddInventory`: map the window id to a fresh empty
inventory. -/
def InventoryManager.AddInventory {S : Type} (m : InventoryManager S)
    (window_id : Int) : InventoryManager S :=
  { m with inventories := fun w =>
      if w = window_id then some ⟨fun _ => none⟩ else m.inventories w }

/-- `InventoryManager::SetHotbarSelected`. -/
def InventoryManager.SetHotbarSelected {S : Type} (m : InventoryManager S)
    (index : Int) : InventoryManager S :=
  { m with index_hotbar_selected := index }

/-- `InventoryManager::GetCursor`. -/
def InventoryManager.GetCursor {S : Type} (m : InventoryManager S) : S :=
  m.cursor

/-- `InventoryManager::SetCursor`. -/
def InventoryManager.SetCursor {S : Type} (m : InventoryManager S) (c : S) :
    InventoryManager S :=
  { m with cursor := c }

/-- The fields of a `ProtocolCraft::SetSlot` message the manager observes:
window id and slot index (16-bit signed) and the slot payload. -/
structure SetSlotMsg (S : Type) where
  window_id : Int
  slot : Int
  slot_data : S

/-- The fields of a `ProtocolCraft::WindowItems` message the manager
observes. -/
structure WindowItemsMsg (S : Type) where
  window_id : Int
  count : Int
  slot_data : List S

/-- The field of a `ProtocolCraft::OpenWindow` message the manager
observes. -/
structure OpenWindowMsg where
  window_id : Int

/-- The field of a `ProtocolCraft::HeldItemChangeClientbound` message the
manager observes. -/
structure HeldItemChangeMsg where
  slot : Int

/--
`InventoryManager::Handle(ProtocolCraft::SetSlot&)`: window −1 with slot
−1 sets the cursor; window −2 redirects to the player inventory; window
≥ 0 stores into that window's inventory; any other window id is only
reported on standard error and the state is left unchanged.
-/
def InventoryManager.HandleSetSlot {S : Type} (m : InventoryManager S)
    (msg : SetSlotMsg S) : InventoryManager S :=
  if msg.window_id = -1 ∧ msg.slot = -1 then
    m.SetCursor msg.slot_data
  else if msg.window_id = -2 then
    m.SetSlot PLAYER_INVENTORY_INDEX msg.slot msg.slot_data
  else if 0 ≤ msg.window_id then
    m.SetSlot msg.window_id msg.slot msg.slot_data
  else
    m

/-- `InventoryManager::Handle(ProtocolCraft::WindowItems&)`: for each
`i < count`, store `slot_data[i]` at index i of the window's inventory.
An access past the end of `slot_data` is undefined behaviour in C++ and is
modelled with the empty slot. -/
def InventoryManager.HandleWindowItems {S : Type} (empty : S)
    (m : InventoryManager S) (msg : WindowItemsMsg S) : InventoryManager S :=
  (List.range msg.count.toNat).foldl
    (fun acc i => acc.SetSlot msg.window_id (Int.ofNat i) (msg.slot_data.getD i empty)) m

/-- `InventoryManager::Handle(ProtocolCraft::OpenWindow&)`. -/
def InventoryManager.HandleOpenWindow {S : Type} (m : InventoryManager S)
    (msg : OpenWindowMsg) : InventoryManager S :=
  m.AddInventory msg.window_id

/-- `InventoryManager::Handle(ProtocolCraft::HeldItemChangeClientbound&)`. -/
def InventoryManager.HandleHeldItemChange {S : Type} (m : InventoryManager S)
    (msg : HeldItemChangeMsg) : InventoryManager S :=
  m.SetHotbarSelected msg.slot

/-- The generic `InventoryManager::Handle(ProtocolCraft::Message&)`
overload: its body is empty, so the state is returned untouched.  `M`
stands for the opaque message type. -/
def InventoryManager.HandleMessage {S M : Type} (m : InventoryManager S)
    (_msg : M) : InventoryManager S :=
  m

/-- A message dispatched to the inventory manager: one of the four
specialised overloads, or any other message (`other`), which reaches the
generic overload. -/
inductive InvMessage (S M : Type) where
  | setSlot (msg : SetSlotMsg S) : InvMessage S M
  | windowItems (msg : WindowItemsMsg S) : InvMessage S M
  | openWindow (msg : OpenWindowMsg) : InvMessage S M
  | heldItemChange (msg : HeldItemChangeMsg) : InvMessage S M
  | other (msg : M) : InvMessage S M

/-- Dispatch of an incoming message to the matching `Handle` overload. -/
def InventoryManager.Handle {S M : Type} (empty : S) (m : InventoryManager S) :
    InvMessage S M → InventoryManager S
  | InvMessage.setSlot msg => m.HandleSetSlot msg
  | InvMessage.windowItems msg => InventoryManager.HandleWindowItems empty m msg
  | InvMessage.openWindow msg => m.HandleOpenWindow msg
  | InvMessage.heldItemChange msg => m.HandleHeldItemChange msg
  | InvMessage.other msg => m.HandleMessage msg

end Botcraft

namespace ProtocolCraft

/-!
Wire codec.  The message classes below are sampled sources; the primitive
readers and writers (`ReadData`/`WriteData`, `ReadByteArray`,
`WriteByteArray`, `ReadVarInt`/`WriteVarInt`) live in protocolCraft
headers that are not among the sampled sources and are modelled from the
spec's "Primitive encodings" section.  A byte stream is a `List Nat` of
values below 256; a reader consumes from the front and returns the value
with the remaining stream, `none` modelling a failed read (underflow or a
malformed primitive).
-/

/-- Two's-complement reinterpretation of a `w`-bit unsigned value as a
signed integer. -/
def toSigned (w : Nat) (v : Nat) : Int :=
  if v < 2 ^ (w - 1) then (v : Int) else (v : Int) - 2 ^ w

/-- Modelled from the spec: the VarInt writer loop — base-128 groups,
little-endian, high bit set on every group but the last; at most 5 groups
(the fuel argument), which never runs out for a 32-bit value. -/
def writeVarIntAux : Nat → Nat → List Nat
  | 0, _ => []
  | fuel + 1, v =>
    if v < 128 then [v] else (v % 128 + 128) :: writeVarIntAux fuel (v / 128)

/-- Modelled from the spec: `WriteVarInt` — the signed 32-bit value is
reinterpreted as unsigned through two's complement and written in base-128
groups. -/
def WriteVarInt (n : Int) : List Nat :=
  writeVarIntAux 5 (n % 2 ^ 32).toNat

/-- Modelled from the spec: the VarInt reader loop; more than 5 groups is
malformed and running out of bytes is underflow, both `none`. -/
def readVarIntAux : Nat → Nat → Nat → List Nat → Option (Nat × List Nat)
  | 0, _, _, _ => none
  | _ + 1, _, _, [] => none
  | fuel + 1, shift, acc, b :: rest =>
    if b < 128 then some (acc + b * 2 ^ shift, rest)
    else readVarIntAux fuel (shift + 7) (acc + b % 128 * 2 ^ shift) rest

/-- Modelled from the spec: `ReadVarInt` — the accumulated unsigned value
is reinterpreted as a signed 32-bit integer. -/
def ReadVarInt (bs : List Nat) : Option (Int × List Nat) :=
  (readVarIntAux 5 0 0 bs).map fun r => (toSigned 32 (r.1 % 2 ^ 32), r.2)

/-- Modelled from the spec: a bool is one byte, 0x01 for true and 0x00 for
false. -/
def WriteBool (b : Bool) : List Nat :=
  [if b then 1 else 0]

/-- Modelled from the spec: reading a bool — 0x00 is false, any non-zero
byte is true. -/
def ReadBool : List Nat → Option (Bool × List Nat)
  | [] => none
  | b :: rest => some (decide (b ≠ 0), rest)

/-- Modelled from the spec: `WriteByteArray` appends the raw bytes (the
count is written separately as a VarInt). -/
def WriteByteArray (bs : List Nat) : List Nat :=
  bs

/-- Modelled from the spec: `ReadByteArray` — take `count` raw bytes;
a negative count or fewer remaining bytes than `count` fails the read. -/
def ReadByteArray (count : Int) (bs : List Nat) : Option (List Nat × List Nat) :=
  if count < 0 then none
  else if count.toNat ≤ bs.length then some (bs.take count.toNat, bs.drop count.toNat)
  else none

/-- Modelled from the spec: a signed 64-bit integer is written big-endian
in two's complement, 8 bytes. -/
def WriteLong (v : Int) : List Nat :=
  [(v % 2 ^ 64).toNat / 2 ^ 56 % 256, (v % 2 ^ 64).toNat / 2 ^ 48 % 256,
   (v % 2 ^ 64).toNat / 2 ^ 40 % 256, (v % 2 ^ 64).toNat / 2 ^ 32 % 256,
   (v % 2 ^ 64).toNat / 2 ^ 24 % 256, (v % 2 ^ 64).toNat / 2 ^ 16 % 256,
   (v % 2 ^ 64).toNat / 2 ^ 8 % 256, (v % 2 ^ 64).toNat % 256]

/-- Modelled from the spec: reading a signed 64-bit big-endian integer;
fewer than 8 remaining bytes is underflow. -/
def ReadLong : List Nat → Option (Int × List Nat)
  | b0 :: b1 :: b2 :: b3 :: b4 :: b5 :: b6 :: b7 :: rest =>
    some (toSigned 64 ((b0 * 2 ^ 56 + b1 * 2 ^ 48 + b2 * 2 ^ 40 + b3 * 2 ^ 32 +
      b4 * 2 ^ 24 + b5 * 2 ^ 16 + b6 * 2 ^ 8 + b7) % 2 ^ 64), rest)
  | _ => none

/-- `SaltSignature` (`Types/SaltSignature.hpp`): a signed 64-bit salt and a
VarInt-length-prefixed signature byte sequence.  The C++ default
constructor leaves `salt` uninitialised and `signature` empty; the model
takes 0 for an unwritten salt. -/
structure SaltSignature where
  salt : Int
  signature : List Nat
deriving DecidableEq, Repr

/-- `SaltSignature::WriteImpl`: 8-byte big-endian salt, VarInt signature
length, then the signature bytes. -/
def SaltSignature.WriteImpl (s : SaltSignature) : List Nat :=
  WriteLong s.salt ++ WriteVarInt s.signature.length ++ WriteByteArray s.signature

/-- `SaltSignature::ReadImpl`. -/
def SaltSignature.ReadImpl (bs : List Nat) : Option (SaltSignature × List Nat) := do
  let (salt, bs1) ← ReadLong bs
  let (signature_size, bs2) ← ReadVarInt bs1
  let (signature, bs3) ← ReadByteArray signature_size bs2
  some (⟨salt, signature⟩, bs3)

/-- `ServerboundKeyPacket` (`Login/Serverbound/ServerboundKeyPacket.hpp`).
Below protocol 759 the C++ class has no `salt_signature` member at all;
the model keeps the field, which then stays at its default `⟨0, []⟩`. -/
structure ServerboundKeyPacket where
  key_bytes : List Nat
  nonce : List Nat
  salt_signature : SaltSignature
deriving DecidableEq, Repr

/-- `ServerboundKeyPacket::WriteImpl`: VarInt key length and key bytes;
above protocol 758 a bool equal to `salt_signature.GetSignature().empty()`
followed by either the VarInt-length-prefixed nonce (when that bool is
true) or the embedded SaltSignature; below, the nonce alone. -/
def ServerboundKeyPacket.WriteImpl (protocol_version : Int)
    (p : ServerboundKeyPacket) : List Nat :=
  WriteVarInt p.key_bytes.length ++ WriteByteArray p.key_bytes ++
    (if 758 < protocol_version then
      WriteBool p.salt_signature.signature.isEmpty ++
        (if p.salt_signature.signature.isEmpty then
          WriteVarInt p.nonce.length ++ WriteByteArray p.nonce
        else
          p.salt_signature.WriteImpl)
    else
      WriteVarInt p.nonce.length ++ WriteByteArray p.nonce)

/-- `ServerboundKeyPacket::ReadImpl`: the fields of a freshly constructed
message are the defaults (empty vectors, default SaltSignature); above
protocol 758 a `has_nonce` bool selects between the nonce and an embedded
SaltSignature. -/
def ServerboundKeyPacket.ReadImpl (protocol_version : Int) (bs : List Nat) :
    Option (ServerboundKeyPacket × List Nat) := do
  let (key_bytes_length, bs1) ← ReadVarInt bs
  let (key_bytes, bs2) ← ReadByteArray key_bytes_length bs1
  if 758 < protocol_version then
    let (has_nonce, bs3) ← ReadBool bs2
    if has_nonce then
      let (nonce_length, bs4) ← ReadVarInt bs3
      let (nonce, bs5) ← ReadByteArray nonce_length bs4
      some (⟨key_bytes, nonce, ⟨0, []⟩⟩, bs5)
    else
      let (salt_signature, bs4) ← SaltSignature.ReadImpl bs3
      some (⟨key_bytes, [], salt_signature⟩, bs4)
  else
    let (nonce_length, bs3) ← ReadVarInt bs2
    let (nonce, bs4) ← ReadByteArray nonce_length bs3
    some (⟨key_bytes, nonce, ⟨0, []⟩⟩, bs4)

/-- `SelectTrade` (`Play/Serverbound/SelectTrade.hpp`): a single VarInt
`selected_slot`. -/
structure SelectTrade where
  selected_slot : Int
deriving DecidableEq, Repr

/-- `SelectTrade::WriteImpl`. -/
def SelectTrade.WriteImpl (m : SelectTrade) : List Nat :=
  WriteVarInt m.selected_slot

/-- `SelectTrade::ReadImpl`. -/
def SelectTrade.ReadImpl (bs : List Nat) : Option (SelectTrade × List Nat) :=
  (ReadVarInt bs).map fun r => (⟨r.1⟩, r.2)

end ProtocolCraft

-- THEOREM_SECTION_MARKER
namespace Botcraft

namespace AI

example : (run (Repeater 3 (Leaf (fun _ : Unit => Status.Failure)))
    (NodeState.rep 0 NodeState.leaf) [(), (), ()]).1 =
    [Status.Running, Status.Running, Status.Failure] := by decide

example : (run (Sequence [Leaf (fun _ : Unit => Status.Success),
    Leaf (fun _ : Unit => Status.Running)])
    (NodeState.composite 0 [NodeState.leaf, NodeState.leaf]) [()]).1 =
    [Status.Running] := by decide

theorem run_append {C : Type} (node : BTNode C) (st : NodeState) (l1 l2 : List C) :
    run node st (l1 ++ l2) =
      ((run node st l1).1 ++ (run node (run node st l1).2 l2).1,
       (run node (run node st l1).2 l2).2) := by
  induction l1 generalizing st with
  | nil => simp [run]
  | cons c cl ih => simp [run, ih]

theorem repeater_tick_of_fail {C : Type} (n : Nat) (child : BTNode C)
    (cnt : Nat) (cst : NodeState) (c : C)
    (h : (child.tickFn cst c).1 = Status.Failure) :
    (Repeater n child).tickFn (NodeState.rep cnt cst) c =
      if (cnt + 1) % 2 ^ 64 = n then
        (Status.Failure, NodeState.rep 0 (child.tickFn cst c).2)
      else
        (Status.Running, NodeState.rep ((cnt + 1) % 2 ^ 64) (child.tickFn cst c).2) := by
  simp only [Repeater]
  rw [h]

theorem repeater_run_below {C : Type} (n : Nat) (child : BTNode C)
    (hfail : ∀ st c, (child.tickFn st c).1 = Status.Failure) (hn : n < 2 ^ 64) :
    ∀ (ctxs : List C) (cnt : Nat) (cst : NodeState), cnt + ctxs.length < n →
      ∃ cstF, run (Repeater n child) (NodeState.rep cnt cst) ctxs =
        (List.replicate ctxs.length Status.Running,
         NodeState.rep (cnt + ctxs.length) cstF) := by
  intro ctxs
  induction ctxs with
  | nil => exact fun cnt cst _ => ⟨cst, rfl⟩
  | cons c cl ih =>
    intro cnt cst hlt
    have hmod : (cnt + 1) % 2 ^ 64 = cnt + 1 := by
      apply Nat.mod_eq_of_lt
      simp only [List.length_cons] at hlt
      omega
    have hne : ¬ (cnt + 1 = n) := by
      simp only [List.length_cons] at hlt
      omega
    obtain ⟨cstF, hrun⟩ := ih (cnt + 1) (child.tickFn cst c).2 (by
      simp only [List.length_cons] at hlt
      omega)
    refine ⟨cstF, ?_⟩
    simp only [run, repeater_tick_of_fail n child cnt cst c (hfail cst c), hmod, if_neg hne,
      hrun, List.length_cons, List.replicate_succ]
    have harith : cnt + 1 + cl.length = cnt + (cl.length + 1) := by omega
    rw [harith]

theorem repeater0_run {C : Type} (child : BTNode C)
    (hfail : ∀ st c, (child.tickFn st c).1 = Status.Failure) :
    ∀ (ctxs : List C) (cnt : Nat) (cst : NodeState), cnt < 2 ^ 64 →
      ∃ cstF, run (Repeater 0 child) (NodeState.rep cnt cst) ctxs =
        ((List.range ctxs.length).map fun j =>
           if (cnt + j + 1) % 2 ^ 64 = 0 then Status.Failure else Status.Running,
         NodeState.rep ((cnt + ctxs.length) % 2 ^ 64) cstF) := by
  intro ctxs
  induction ctxs with
  | nil =>
    intro cnt cst hc
    refine ⟨cst, ?_⟩
    simp only [run, List.length_nil, List.range_zero, List.map_nil, Nat.add_zero]
    rw [Nat.mod_eq_of_lt hc]
  | cons c cl ih =>
    intro cnt cst hc
    have hmodlt : (cnt + 1) % 2 ^ 64 < 2 ^ 64 := Nat.mod_lt _ (by norm_num)
    obtain ⟨cstF, hrun⟩ := ih ((cnt + 1) % 2 ^ 64) (child.tickFn cst c).2 hmodlt
    refine ⟨cstF, ?_⟩
    have htick := repeater_tick_of_fail 0 child cnt cst c (hfail cst c)
    have hstate : ((Repeater 0 child).tickFn (NodeState.rep cnt cst) c).2
        = NodeState.rep ((cnt + 1) % 2 ^ 64) (child.tickFn cst c).2 := by
      rw [htick]
      split
      next h0 => rw [h0]
      next h0 => rfl
    have hstat : ((Repeater 0 child).tickFn (NodeState.rep cnt cst) c).1
        = if (cnt + 1) % 2 ^ 64 = 0 then Status.Failure else Status.Running := by
      rw [htick]
      split
      next h0 => rfl
      next h0 => rfl
    simp only [run, hstate, hstat, hrun, List.length_cons, List.range_succ_eq_map,
      List.map_cons, List.map_map]
    have hmeq : ∀ x y : Nat, x = y →
        (if x = 0 then Status.Failure else Status.Running) =
        (if y = 0 then Status.Failure else Status.Running) := by
      intro x y h
      rw [h]
    congr 1
    · congr 1
      apply List.map_congr_left
      intro j _
      simp only [Function.comp_apply]
      apply hmeq
      omega
    · congr 1
      omega

/--
C3: amended Repeater semantics.  For n > 0 a Repeater whose child fails on
every tick returns Running on each of the first n − 1 ticks and Failure on
the n-th, with its counter reset to 0; on any tick where the child
succeeds, the Repeater returns Success with its counter reset to 0.  For
n = 0 the k-th consecutive failing tick returns Running whenever
k mod 2 ^ 64 ≠ 0 and Failure when k mod 2 ^ 64 = 0: the size_t counter
wraps around, so failures are not retried literally forever.
-/
theorem repeater_semantics_amended :
    (∀ (C : Type) (n : Nat) (child : BTNode C) (cst : NodeState) (ctxs : List C),
       0 < n → n < 2 ^ 64 → (∀ st c, (child.tickFn st c).1 = Status.Failure) →
       ctxs.length = n →
       ∃ cstF, run (Repeater n child) (NodeState.rep 0 cst) ctxs =
         (List.replicate (n - 1) Status.Running ++ [Status.Failure],
          NodeState.rep 0 cstF))
    ∧
    (∀ (C : Type) (n : Nat) (child : BTNode C) (cnt : Nat) (cst : NodeState) (c : C),
       (child.tickFn cst c).1 = Status.Success →
       (Repeater n child).tickFn (NodeState.rep cnt cst) c =
         (Status.Success, NodeState.rep 0 (child.tickFn cst c).2))
    ∧
    (∀ (C : Type) (child : BTNode C) (cst : NodeState) (ctxs : List C),
       (∀ st c, (child.tickFn st c).1 = Status.Failure) →
       ∃ cstF, run (Repeater 0 child) (NodeState.rep 0 cst) ctxs =
         ((List.range ctxs.length).map fun j =>
            if (j + 1) % 2 ^ 64 = 0 then Status.Failure else Status.Running,
          NodeState.rep (ctxs.length % 2 ^ 64) cstF)) := by
  refine ⟨?_, ?_, ?_⟩
  · intro C n child cst ctxs hn0 hn64 hfail hlen
    have hne : ctxs ≠ [] := by
      intro h
      rw [h] at hlen
      simp at hlen
      omega
    obtain ⟨l1, c0, hsplit⟩ : ∃ l1 c0, ctxs = l1 ++ [c0] :=
      ⟨ctxs.dropLast, ctxs.getLast hne, (List.dropLast_append_getLast hne).symm⟩
    subst hsplit
    have hl1 : l1.length = n - 1 := by
      simp only [List.length_append, List.length_singleton] at hlen
      omega
    obtain ⟨cst1, hrun1⟩ := repeater_run_below n child hfail hn64 l1 0 cst (by omega)
    refine ⟨(child.tickFn cst1 c0).2, ?_⟩
    rw [run_append, hrun1]
    simp only [run, hl1]
    have htick := repeater_tick_of_fail n child (0 + (n - 1)) cst1 c0 (hfail cst1 c0)
    have hcond : (0 + (n - 1) + 1) % 2 ^ 64 = n := by
      have h1 : 0 + (n - 1) + 1 = n := by omega
      rw [h1, Nat.mod_eq_of_lt hn64]
    rw [htick, if_pos hcond]
  · intro C n child cnt cst c hsucc
    simp only [Repeater]
    rw [hsucc]
  · intro C child cst ctxs hfail
    obtain ⟨cstF, hrun⟩ := repeater0_run child hfail ctxs 0 cst (by norm_num)
    refine ⟨cstF, ?_⟩
    rw [hrun]
    simp only [Nat.zero_add]

/--
C3: counterexample to "with n = 0 such a Repeater returns Running on every
tick indefinitely".  A Repeater(0) over an always-failing leaf, ticked
2 ^ 64 times, returns Failure on the last tick: the size_t failure counter
wraps to 0 = n on the 2 ^ 64-th consecutive failure.
-/
theorem repeater_zero_not_running_forever :
    (run (Repeater 0 (Leaf (fun _ : Unit => Status.Failure)))
      (NodeState.rep 0 NodeState.leaf) (List.replicate (2 ^ 64) ())).1.getLast?
      = some Status.Failure := by
  obtain ⟨cstF, hrun⟩ := repeater0_run (Leaf (fun _ : Unit => Status.Failure))
    (fun _ _ => rfl) (List.replicate (2 ^ 64) ()) 0 NodeState.leaf (by norm_num)
  rw [hrun]
  rw [List.getLast?_eq_getElem?]
  simp only [List.length_map, List.length_range, List.length_replicate]
  rw [List.getElem?_map]
  rw [List.getElem?_range (by norm_num : 2 ^ 64 - 1 < 2 ^ 64)]
  simp only [Option.map_some']
  norm_num

/-- C3 witness: the amended theorem applied at n = 2 over an always-failing
leaf with two ticks. -/
theorem repeater_semantics_amended_witness :
    ∃ cstF, run (Repeater 2 (Leaf (fun _ : Unit => Status.Failure)))
      (NodeState.rep 0 NodeState.leaf) [(), ()] =
      (List.replicate 1 Status.Running ++ [Status.Failure], NodeState.rep 0 cstF) :=
  repeater_semantics_amended.1 Unit 2 (Leaf (fun _ => Status.Failure))
    NodeState.leaf [(), ()] (by decide) (by decide) (fun _ _ => rfl) rfl

/--
The Sequence tick behaviour as the specification words it: starting from
the resume cursor, tick children in order; on Failure, reset the cursor to
the beginning and return Failure; on Running, return Running with the
cursor still at that child; on Success, advance the cursor and continue;
when the cursor passes the last child, reset it to the beginning and
return Success.  Each child along the way is ticked exactly once.
-/
theorem seqLoop_eq_spec {C : Type} (children : List (BTNode C)) (c : C) :
    ∀ (k i : Nat) (sts : List NodeState), k = children.length - i →
      seqLoop (children.map BTNode.tickFn) k sts i c = seqSpecLoop children sts i c := by
  intro k
  induction k with
  | zero =>
    intro i sts hk
    have hge : ¬ i < children.length := by omega
    rw [seqSpecLoop, dif_neg hge]
    rfl
  | succ k ih =>
    intro i sts hk
    have hlt : i < children.length := by omega
    have hmap : i < (children.map BTNode.tickFn).length := by
      rw [List.length_map]
      exact hlt
    rw [seqSpecLoop, dif_pos hlt]
    show (match (List.map BTNode.tickFn children).getD i defaultTick (sts.getD i NodeState.leaf) c
        with
      | (st, ns) => match st with
        | _ => _) = _
    rw [List.getD_eq_getElem _ _ hmap, List.getElem_map]
    simp only [seqLoop]
    rw [List.getD_eq_getElem _ _ hmap, List.getElem_map]
    cases hres : (children[i].tickFn (sts.getD i NodeState.leaf) c).1 with
    | Failure => rfl
    | Running => rfl
    | Success => exact ih (i + 1) _ (by omega)

/--
C4: `Sequence::Tick` with its resume iterator behaves exactly as the
specification describes (`seqSpecLoop`): tick children in order from the
cursor, Failure resets the cursor and fails, Running returns with the
cursor at the running child so the next tick re-enters it, Success
advances, and passing the end resets the cursor and succeeds.  The second
conjunct runs the spec's resume scenario — Success / (Running then
Success) / Success — over a child that counts its ticks: the trace is
[Running, Success] and the middle child's counter ends at 2, so it was
ticked exactly once per outer tick.
-/
theorem sequence_tick_spec :
    (∀ (C : Type) (children : List (BTNode C)) (i : Nat) (sts : List NodeState) (c : C),
       (Sequence children).tickFn (NodeState.composite i sts) c =
         ((seqSpecLoop children sts i c).1,
          NodeState.composite (seqSpecLoop children sts i c).2.1
            (seqSpecLoop children sts i c).2.2))
    ∧
    run (Sequence [Leaf (fun _ : Unit => Status.Success), countingChild,
        Leaf (fun _ : Unit => Status.Success)])
      (NodeState.composite 0 [NodeState.leaf, NodeState.composite 0 [], NodeState.leaf])
      [(), ()] =
      ([Status.Running, Status.Success],
       NodeState.composite 0 [NodeState.leaf, NodeState.composite 2 [], NodeState.leaf]) := by
  constructor
  · intro C children i sts c
    simp only [Sequence]
    rw [seqLoop_eq_spec children c (children.length - i) i sts rfl]
  · rfl

theorem invertStatus_invertStatus (s : Status) : invertStatus (invertStatus s) = s := by
  cases s <;> rfl

theorem selLoop_length {C : Type} (ticks : List (NodeState → C → Status × NodeState)) (c : C) :
    ∀ (k i : Nat) (sts : List NodeState),
      ((selLoop ticks k sts i c).2.2).length = sts.length := by
  intro k
  induction k with
  | zero => intro i sts; rfl
  | succ k ih =>
    intro i sts
    simp only [selLoop]
    cases ((ticks.getD i defaultTick) (sts.getD i NodeState.leaf) c).1 with
    | Failure => rw [ih]; exact List.length_set ..
    | Running => exact List.length_set ..
    | Success => exact List.length_set ..

theorem selLoop_seqLoop_dual {C : Type} (children : List (BTNode C)) (c : C) :
    ∀ (k i : Nat) (sts : List NodeState), sts.length = children.length →
      k ≤ children.length - i →
      seqLoop ((children.map Inverter).map BTNode.tickFn) k
          (sts.map NodeState.decorator) i c =
        (invertStatus (selLoop (children.map BTNode.tickFn) k sts i c).1,
         ((selLoop (children.map BTNode.tickFn) k sts i c).2.1,
          ((selLoop (children.map BTNode.tickFn) k sts i c).2.2).map NodeState.decorator)) := by
  intro k
  induction k with
  | zero => intro i sts _ _; rfl
  | succ k ih =>
    intro i sts hlen hk
    have hlt : i < children.length := by omega
    have hlts : i < sts.length := by omega
    have hltm1 : i < (children.map BTNode.tickFn).length := by
      rw [List.length_map]; exact hlt
    have hltm2 : i < ((children.map Inverter).map BTNode.tickFn).length := by
      rw [List.length_map, List.length_map]; exact hlt
    have hltsm : i < (sts.map NodeState.decorator).length := by
      rw [List.length_map]; exact hlts
    simp only [seqLoop, selLoop]
    rw [List.getD_eq_getElem _ _ hltm1, List.getElem_map]
    rw [List.getD_eq_getElem _ _ hltm2, List.getElem_map, List.getElem_map]
    rw [List.getD_eq_getElem _ _ hltsm, List.getElem_map]
    rw [List.getD_eq_getElem _ _ hlts]
    have hinv : (Inverter children[i]).tickFn (NodeState.decorator sts[i]) c =
        (invertStatus (children[i].tickFn sts[i] c).1,
         NodeState.decorator (children[i].tickFn sts[i] c).2) := rfl
    rw [hinv]
    have hset : (sts.map NodeState.decorator).set i
          (NodeState.decorator (children[i].tickFn sts[i] c).2) =
        (sts.set i (children[i].tickFn sts[i] c).2).map NodeState.decorator :=
      (List.map_set ..).symm
    cases (children[i].tickFn sts[i] c).1 with
    | Failure =>
      show seqLoop _ k ((sts.map NodeState.decorator).set i _) (i + 1) c = _
      rw [hset]
      exact ih (i + 1) (sts.set i (children[i].tickFn sts[i] c).2)
        (by rw [List.length_set]; exact hlen) (by omega)
    | Running =>
      show (Status.Running, (i, (sts.map NodeState.decorator).set i _)) = _
      rw [hset]
      rfl
    | Success =>
      show (Status.Failure, (0, (sts.map NodeState.decorator).set i _)) = _
      rw [hset]
      rfl

theorem selector_dual_tick {C : Type} (children : List (BTNode C)) (i : Nat)
    (sts : List NodeState) (c : C) (hlen : sts.length = children.length) :
    (Selector children).tickFn (NodeState.composite i sts) c =
      ((selLoop (children.map BTNode.tickFn) (children.length - i) sts i c).1,
       NodeState.composite
         (selLoop (children.map BTNode.tickFn) (children.length - i) sts i c).2.1
         (selLoop (children.map BTNode.tickFn) (children.length - i) sts i c).2.2)
    ∧
    (Inverter (Sequence (children.map Inverter))).tickFn
        (NodeState.decorator (NodeState.composite i (sts.map NodeState.decorator))) c =
      ((selLoop (children.map BTNode.tickFn) (children.length - i) sts i c).1,
       NodeState.decorator (NodeState.composite
         (selLoop (children.map BTNode.tickFn) (children.length - i) sts i c).2.1
         (((selLoop (children.map BTNode.tickFn) (children.length - i) sts i c).2.2).map
           NodeState.decorator))) := by
  constructor
  · rfl
  · show (invertStatus (seqLoop ((children.map Inverter).map BTNode.tickFn)
        ((children.map Inverter).length - i) (sts.map NodeState.decorator) i c).1,
      NodeState.decorator (NodeState.composite
        (seqLoop ((children.map Inverter).map BTNode.tickFn)
          ((children.map Inverter).length - i) (sts.map NodeState.decorator) i c).2.1
        (seqLoop ((children.map Inverter).map BTNode.tickFn)
          ((children.map Inverter).length - i) (sts.map NodeState.decorator) i c).2.2)) = _
    rw [List.length_map]
    rw [selLoop_seqLoop_dual children c (children.length - i) i sts hlen (Nat.le_refl _)]
    rw [invertStatus_invertStatus]

/--
C5: Selector duality.  For every list of children, every starting cursor
and child states of matching length, and every sequence of tick contexts,
the trace of Statuses produced by a Selector over the children equals the
trace produced by an Inverter wrapping a Sequence over the
Inverter-wrapped children.
-/
theorem selector_duality :
    ∀ (C : Type) (children : List (BTNode C)) (i : Nat) (sts : List NodeState)
      (ctxs : List C), sts.length = children.length →
      (run (Selector children) (NodeState.composite i sts) ctxs).1 =
      (run (Inverter (Sequence (children.map Inverter)))
        (NodeState.decorator (NodeState.composite i (sts.map NodeState.decorator)))
        ctxs).1 := by
  intro C children i sts ctxs
  induction ctxs generalizing i sts with
  | nil => intro _; rfl
  | cons c cl ih =>
    intro hlen
    obtain ⟨h1, h2⟩ := selector_dual_tick children i sts c hlen
    simp only [run, h1, h2]
    have hlen2 : ((selLoop (children.map BTNode.tickFn) (children.length - i) sts i
        c).2.2).length = children.length := by
      rw [selLoop_length]; exact hlen
    rw [ih _ _ hlen2]

/-- C5 witness: the duality applied to a one-child selector over a failing
leaf, a single tick. -/
theorem selector_duality_witness :
    (run (Selector [Leaf (fun _ : Unit => Status.Failure)])
      (NodeState.composite 0 [NodeState.leaf]) [()]).1 =
    (run (Inverter (Sequence ([Leaf (fun _ : Unit => Status.Failure)].map Inverter)))
      (NodeState.decorator (NodeState.composite 0
        ([NodeState.leaf].map NodeState.decorator))) [()]).1 :=
  selector_duality Unit [Leaf (fun _ => Status.Failure)] 0 [NodeState.leaf] [()] rfl

end AI

/--
C1: evidence for the `GetHotbarSelected` slip.  In a state whose player
inventory exists (created and filled at the selected hotbar slot), the
function as written produces no value — control falls off the end of the
value-returning function — while the spec's intended reading returns the
stored slot; with the player inventory absent the code does return the
empty slot.
-/
theorem getHotbarSelected_missing_return :
    InventoryManager.GetHotbarSelected 0
      (((InventoryManager.init (S := Nat) 0).AddInventory
        PLAYER_INVENTORY_INDEX).SetSlot PLAYER_INVENTORY_INDEX
        (INVENTORY_HOTBAR_START + 0) 7) = none
    ∧ InventoryManager.GetHotbarSelectedSpec 0
      (((InventoryManager.init (S := Nat) 0).AddInventory
        PLAYER_INVENTORY_INDEX).SetSlot PLAYER_INVENTORY_INDEX
        (INVENTORY_HOTBAR_START + 0) 7) = 7
    ∧ InventoryManager.GetHotbarSelected 0 (InventoryManager.init (S := Nat) 0)
      = some 0 := by
  refine ⟨?_, ?_, ?_⟩ <;> rfl

/--
C7: cursor isolation.  Handling SetSlot with window id −1 and slot −1 sets
the cursor to the payload and leaves the inventories mapping and the
selected hotbar index untouched; in particular from the initial state no
inventory appears under window id −1.
-/
theorem handle_setslot_cursor_isolation :
    ∀ (S : Type) (empty X : S) (m : InventoryManager S),
      (m.HandleSetSlot ⟨-1, -1, X⟩).cursor = X ∧
      (m.HandleSetSlot ⟨-1, -1, X⟩).inventories = m.inventories ∧
      (m.HandleSetSlot ⟨-1, -1, X⟩).index_hotbar_selected = m.index_hotbar_selected ∧
      ((InventoryManager.init empty).HandleSetSlot ⟨-1, -1, X⟩).GetInventory (-1)
        = none := by
  intro S empty X m
  refine ⟨rfl, rfl, rfl, rfl⟩

/--
C8: unknown window.  Handling SetSlot with a window id below −2 (in none
of {−2, −1, ≥ 0}) only reports a diagnostic and leaves the manager state —
inventories, cursor and hotbar index — entirely unchanged.
-/
theorem handle_setslot_unknown_window :
    ∀ (S : Type) (m : InventoryManager S) (msg : SetSlotMsg S),
      msg.window_id ≤ -3 → m.HandleSetSlot msg = m := by
  intro S m msg h
  have h1 : ¬(msg.window_id = -1 ∧ msg.slot = -1) := by
    intro hc
    omega
  have h2 : ¬(msg.window_id = -2) := by omega
  have h3 : ¬(0 ≤ msg.window_id) := by omega
  unfold InventoryManager.HandleSetSlot
  rw [if_neg h1, if_neg h2, if_neg h3]

/-- C8 witness: a SetSlot for window −3 handled from the initial manager. -/
theorem handle_setslot_unknown_window_witness :
    (InventoryManager.init (S := Nat) 0).HandleSetSlot ⟨-3, 0, 5⟩ =
      InventoryManager.init (S := Nat) 0 :=
  handle_setslot_unknown_window Nat (InventoryManager.init 0) ⟨-3, 0, 5⟩ (by decide)

theorem setSlot_preserves_hotbar {S : Type} (m : InventoryManager S)
    (window_id index : Int) (slot : S) :
    (m.SetSlot window_id index slot).index_hotbar_selected
      = m.index_hotbar_selected := by
  unfold InventoryManager.SetSlot
  split <;> rfl

theorem handleSetSlot_preserves_hotbar {S : Type} (m : InventoryManager S)
    (msg : SetSlotMsg S) :
    (m.HandleSetSlot msg).index_hotbar_selected = m.index_hotbar_selected := by
  unfold InventoryManager.HandleSetSlot
  split
  · rfl
  split
  · exact setSlot_preserves_hotbar ..
  split
  · exact setSlot_preserves_hotbar ..
  · rfl

theorem handleWindowItems_preserves_hotbar {S : Type} (empty : S)
    (m : InventoryManager S) (msg : WindowItemsMsg S) :
    (InventoryManager.HandleWindowItems empty m msg).index_hotbar_selected
      = m.index_hotbar_selected := by
  unfold InventoryManager.HandleWindowItems
  generalize List.range msg.count.toNat = l
  induction l generalizing m with
  | nil => rfl
  | cons i rest ih =>
    rw [List.foldl_cons, ih]
    exact setSlot_preserves_hotbar ..

theorem handle_fold_hotbar_range {S M : Type} (empty : S) :
    ∀ (msgs : List (InvMessage S M)) (m : InventoryManager S),
      (∀ h : HeldItemChangeMsg, InvMessage.heldItemChange h ∈ msgs →
        0 ≤ h.slot ∧ h.slot ≤ 8) →
      0 ≤ m.index_hotbar_selected → m.index_hotbar_selected ≤ 8 →
      0 ≤ (msgs.foldl (InventoryManager.Handle empty) m).index_hotbar_selected ∧
      (msgs.foldl (InventoryManager.Handle empty) m).index_hotbar_selected ≤ 8 := by
  intro msgs
  induction msgs with
  | nil => exact fun m _ h0 h8 => ⟨h0, h8⟩
  | cons msg rest ih =>
    intro m hmem h0 h8
    rw [List.foldl_cons]
    have hrest : ∀ h : HeldItemChangeMsg, InvMessage.heldItemChange h ∈ rest →
        0 ≤ h.slot ∧ h.slot ≤ 8 :=
      fun h hm => hmem h (List.mem_cons_of_mem _ hm)
    cases msg with
    | setSlot m2 =>
      refine ih _ hrest ?_ ?_ <;> rw [InventoryManager.Handle,
        handleSetSlot_preserves_hotbar] <;> assumption
    | windowItems m2 =>
      refine ih _ hrest ?_ ?_ <;> rw [InventoryManager.Handle,
        handleWindowItems_preserves_hotbar] <;> assumption
    | openWindow m2 =>
      exact ih _ hrest h0 h8
    | heldItemChange m2 =>
      obtain ⟨hs0, hs8⟩ := hmem m2 (List.mem_cons_self _ _)
      exact ih _ hrest hs0 hs8
    | other m2 =>
      exact ih _ hrest h0 h8

/--
C9: hotbar index invariant.  Handling HeldItemChangeClientbound sets
`index_hotbar_selected` to exactly the carried slot, and starting from a
freshly constructed manager, any sequence of handled messages whose
HeldItemChangeClientbound slots lie in 0..8 keeps
`index_hotbar_selected` within 0..8.
-/
theorem held_item_change_hotbar_range :
    (∀ (S : Type) (m : InventoryManager S) (msg : HeldItemChangeMsg),
       (m.HandleHeldItemChange msg).index_hotbar_selected = msg.slot)
    ∧
    (∀ (S M : Type) (empty : S) (msgs : List (InvMessage S M)),
       (∀ h : HeldItemChangeMsg, InvMessage.heldItemChange h ∈ msgs →
         0 ≤ h.slot ∧ h.slot ≤ 8) →
       0 ≤ (msgs.foldl (InventoryManager.Handle empty)
         (InventoryManager.init empty)).index_hotbar_selected ∧
       (msgs.foldl (InventoryManager.Handle empty)
         (InventoryManager.init empty)).index_hotbar_selected ≤ 8) := by
  constructor
  · intro S m msg
    rfl
  · intro S M empty msgs hmem
    exact handle_fold_hotbar_range empty msgs (InventoryManager.init empty) hmem
      (le_refl 0) ((by norm_num : (0 : Int) ≤ 8))

/-- C9 witness: a HeldItemChange carrying slot 5 after an OpenWindow, from
the initial manager. -/
theorem held_item_change_hotbar_range_witness :
    0 ≤ (([InvMessage.openWindow ⟨3⟩,
        InvMessage.heldItemChange ⟨5⟩] : List (InvMessage Nat Unit)).foldl
        (InventoryManager.Handle 0)
        (InventoryManager.init 0)).index_hotbar_selected ∧
      (([InvMessage.openWindow ⟨3⟩,
        InvMessage.heldItemChange ⟨5⟩] : List (InvMessage Nat Unit)).foldl
        (InventoryManager.Handle 0)
        (InventoryManager.init 0)).index_hotbar_selected ≤ 8 :=
  held_item_change_hotbar_range.2 Nat Unit 0
    [InvMessage.openWindow ⟨3⟩, InvMessage.heldItemChange ⟨5⟩]
    (by
      intro h hm
      simp only [List.mem_cons, List.not_mem_nil, or_false] at hm
      rcases hm with hm | hm
      · exact absurd hm (by simp)
      · cases hm
        exact ⟨by decide, by decide⟩)

/--
C10: the generic `Handle(ProtocolCraft::Message&)` overload leaves the
entire manager state — the inventories mapping, the cursor and the
selected hotbar index — unchanged, both called directly and through
dispatch.
-/
theorem handle_generic_message_frame :
    ∀ (S M : Type) (empty : S) (m : InventoryManager S) (msg : M),
      m.HandleMessage msg = m ∧
      InventoryManager.Handle empty m (InvMessage.other msg) = m ∧
      (m.HandleMessage msg).inventories = m.inventories ∧
      (m.HandleMessage msg).cursor = m.cursor ∧
      (m.HandleMessage msg).index_hotbar_selected = m.index_hotbar_selected := by
  intro S M empty m msg
  exact ⟨rfl, rfl, rfl, rfl, rfl⟩

end Botcraft

namespace ProtocolCraft

theorem readVarIntAux_writeVarIntAux :
    ∀ (fuel v shift acc : Nat) (rest : List Nat), v < 128 ^ (fuel + 1) →
      readVarIntAux (fuel + 1) shift acc (writeVarIntAux (fuel + 1) v ++ rest) =
        some (acc + v * 2 ^ shift, rest) := by
  intro fuel
  induction fuel with
  | zero =>
    intro v shift acc rest hv
    have hv128 : v < 128 := by
      have : (128 : Nat) ^ (0 + 1) = 128 := by norm_num
      omega
    simp [writeVarIntAux, readVarIntAux, hv128]
  | succ fuel ih =>
    intro v shift acc rest hv
    by_cases hv128 : v < 128
    · simp [writeVarIntAux, readVarIntAux, hv128]
    · have hw : writeVarIntAux (fuel + 1 + 1) v =
          (v % 128 + 128) :: writeVarIntAux (fuel + 1) (v / 128) := by
        show (if v < 128 then [v]
          else (v % 128 + 128) :: writeVarIntAux (fuel + 1) (v / 128)) = _
        rw [if_neg hv128]
      have hb : ¬ (v % 128 + 128 < 128) := by omega
      have hdiv : v / 128 < 128 ^ (fuel + 1) := by
        rw [Nat.div_lt_iff_lt_mul (by norm_num : 0 < 128)]
        calc v < 128 ^ (fuel + 1 + 1) := hv
          _ = 128 ^ (fuel + 1) * 128 := by rw [pow_succ]
      rw [hw, List.cons_append]
      have hr : readVarIntAux (fuel + 1 + 1) shift acc
          ((v % 128 + 128) :: (writeVarIntAux (fuel + 1) (v / 128) ++ rest)) =
          readVarIntAux (fuel + 1) (shift + 7)
            (acc + (v % 128 + 128) % 128 * 2 ^ shift)
            (writeVarIntAux (fuel + 1) (v / 128) ++ rest) := by
        show (if v % 128 + 128 < 128 then
            some (acc + (v % 128 + 128) * 2 ^ shift,
              writeVarIntAux (fuel + 1) (v / 128) ++ rest)
          else readVarIntAux (fuel + 1) (shift + 7)
            (acc + (v % 128 + 128) % 128 * 2 ^ shift)
            (writeVarIntAux (fuel + 1) (v / 128) ++ rest)) = _
        rw [if_neg hb]
      rw [hr, ih (v / 128) (shift + 7) _ rest hdiv]
      have hm : (v % 128 + 128) % 128 = v % 128 := by omega
      rw [hm]
      have hp : (2 : Nat) ^ (shift + 7) = 2 ^ shift * 128 := by
        rw [pow_add]
        norm_num
      rw [hp]
      have hmd : v % 128 + 128 * (v / 128) = v := Nat.mod_add_div v 128
      congr 2
      calc acc + v % 128 * 2 ^ shift + v / 128 * (2 ^ shift * 128)
          = acc + (v % 128 + 128 * (v / 128)) * 2 ^ shift := by ring
        _ = acc + v * 2 ^ shift := by rw [hmd]

theorem ReadVarInt_WriteVarInt (n : Int) (rest : List Nat)
    (h1 : -2 ^ 31 ≤ n) (h2 : n < 2 ^ 31) :
    ReadVarInt (WriteVarInt n ++ rest) = some (n, rest) := by
  unfold ReadVarInt WriteVarInt
  have hvlt : (n % 2 ^ 32).toNat < 2 ^ 32 := by omega
  have hpow : (n % 2 ^ 32).toNat < 128 ^ (4 + 1) := by
    have : (2 : Nat) ^ 32 ≤ 128 ^ (4 + 1) := by norm_num
    omega
  have h5 : (5 : Nat) = 4 + 1 := rfl
  rw [h5, readVarIntAux_writeVarIntAux 4 _ 0 0 rest hpow]
  have hval : 0 + (n % 2 ^ 32).toNat * 2 ^ 0 = (n % 2 ^ 32).toNat := by
    ring
  simp only [Option.map_some', hval, Nat.mod_eq_of_lt hvlt]
  have hcast : ((n % 2 ^ 32).toNat : Int) = n % 2 ^ 32 :=
    Int.toNat_of_nonneg (Int.emod_nonneg n (by norm_num))
  unfold toSigned
  split
  next h =>
    congr 2
    omega
  next h =>
    congr 2
    omega

theorem ReadBool_WriteBool (b : Bool) (rest : List Nat) :
    ReadBool (WriteBool b ++ rest) = some (b, rest) := by
  cases b <;> rfl

theorem ReadByteArray_append (bs rest : List Nat) :
    ReadByteArray (bs.length : Int) (bs ++ rest) = some (bs, rest) := by
  unfold ReadByteArray
  rw [if_neg (by omega : ¬ ((bs.length : Int) < 0))]
  have ht : ((bs.length : Int)).toNat = bs.length := by omega
  rw [ht, if_pos (by simp : bs.length ≤ (bs ++ rest).length)]
  rw [List.take_left, List.drop_left]

theorem ReadLong_cons (b0 b1 b2 b3 b4 b5 b6 b7 : Nat) (rest : List Nat) :
    ReadLong (b0 :: b1 :: b2 :: b3 :: b4 :: b5 :: b6 :: b7 :: rest) =
      some (toSigned 64 ((b0 * 2 ^ 56 + b1 * 2 ^ 48 + b2 * 2 ^ 40 + b3 * 2 ^ 32 +
        b4 * 2 ^ 24 + b5 * 2 ^ 16 + b6 * 2 ^ 8 + b7) % 2 ^ 64), rest) :=
  rfl

theorem ReadLong_WriteLong (v : Int) (rest : List Nat)
    (h1 : -2 ^ 63 ≤ v) (h2 : v < 2 ^ 63) :
    ReadLong (WriteLong v ++ rest) = some (v, rest) := by
  unfold WriteLong
  simp only [List.cons_append, List.nil_append]
  have hult : (v % 2 ^ 64).toNat < 2 ^ 64 := by omega
  rw [ReadLong_cons]
  have hsum : (v % 2 ^ 64).toNat / 2 ^ 56 % 256 * 2 ^ 56 +
      (v % 2 ^ 64).toNat / 2 ^ 48 % 256 * 2 ^ 48 +
      (v % 2 ^ 64).toNat / 2 ^ 40 % 256 * 2 ^ 40 +
      (v % 2 ^ 64).toNat / 2 ^ 32 % 256 * 2 ^ 32 +
      (v % 2 ^ 64).toNat / 2 ^ 24 % 256 * 2 ^ 24 +
      (v % 2 ^ 64).toNat / 2 ^ 16 % 256 * 2 ^ 16 +
      (v % 2 ^ 64).toNat / 2 ^ 8 % 256 * 2 ^ 8 +
      (v % 2 ^ 64).toNat % 256 = (v % 2 ^ 64).toNat := by
    omega
  rw [hsum, Nat.mod_eq_of_lt hult]
  have hcast : ((v % 2 ^ 64).toNat : Int) = v % 2 ^ 64 :=
    Int.toNat_of_nonneg (Int.emod_nonneg v (by norm_num))
  unfold toSigned
  split
  next h =>
    congr 2
    omega
  next h =>
    congr 2
    omega

theorem SaltSignature_ReadImpl_WriteImpl (s : SaltSignature) (rest : List Nat)
    (h1 : -2 ^ 63 ≤ s.salt) (h2 : s.salt < 2 ^ 63)
    (h3 : (s.signature.length : Int) < 2 ^ 31) :
    SaltSignature.ReadImpl (SaltSignature.WriteImpl s ++ rest) = some (s, rest) := by
  unfold SaltSignature.WriteImpl SaltSignature.ReadImpl WriteByteArray
  simp only [List.append_assoc]
  rw [ReadLong_WriteLong s.salt _ h1 h2]
  simp only [Option.bind_eq_bind, Option.some_bind]
  rw [ReadVarInt_WriteVarInt _ _ (by omega) h3]
  simp only [Option.some_bind]
  rw [ReadByteArray_append]
  rfl

theorem SelectTrade_ReadImpl_WriteImpl (m : SelectTrade)
    (h1 : -2 ^ 31 ≤ m.selected_slot) (h2 : m.selected_slot < 2 ^ 31) :
    SelectTrade.ReadImpl (SelectTrade.WriteImpl m) = some (m, []) := by
  unfold SelectTrade.ReadImpl SelectTrade.WriteImpl
  have h := ReadVarInt_WriteVarInt m.selected_slot [] h1 h2
  rw [List.append_nil] at h
  rw [h]
  rfl

theorem ServerboundKeyPacket_ReadImpl_WriteImpl (pv : Int) (p : ServerboundKeyPacket)
    (hk : (p.key_bytes.length : Int) < 2 ^ 31)
    (hn : (p.nonce.length : Int) < 2 ^ 31)
    (hs1 : -2 ^ 63 ≤ p.salt_signature.salt) (hs2 : p.salt_signature.salt < 2 ^ 63)
    (hs3 : (p.salt_signature.signature.length : Int) < 2 ^ 31)
    (hshape : if 758 < pv then
        p.salt_signature = ⟨0, []⟩ ∨ (p.salt_signature.signature ≠ [] ∧ p.nonce = [])
      else p.salt_signature = ⟨0, []⟩) :
    ServerboundKeyPacket.ReadImpl pv (ServerboundKeyPacket.WriteImpl pv p)
      = some (p, []) := by
  obtain ⟨key_bytes, nonce, salt_signature⟩ := p
  obtain ⟨salt, signature⟩ := salt_signature
  simp only at hk hn hs1 hs2 hs3 hshape
  unfold ServerboundKeyPacket.WriteImpl ServerboundKeyPacket.ReadImpl WriteByteArray
  by_cases hpv : 758 < pv
  · simp only [if_pos hpv] at hshape ⊢
    rcases hshape with hdef | ⟨hne, hnonce⟩
    · injection hdef with hsalt hsig
      subst hsalt
      subst hsig
      simp only [List.isEmpty_nil, if_pos]
      simp only [List.append_assoc]
      rw [ReadVarInt_WriteVarInt _ _ (by omega) hk]
      simp only [Option.bind_eq_bind, Option.some_bind]
      rw [ReadByteArray_append]
      simp only [Option.some_bind]
      rw [ReadBool_WriteBool]
      simp only [Option.some_bind, if_pos]
      rw [ReadVarInt_WriteVarInt _ _ (by omega) hn]
      simp only [Option.some_bind]
      have hba := ReadByteArray_append nonce []
      rw [List.append_nil] at hba
      rw [hba]
      rfl
    · subst hnonce
      have hsig : signature.isEmpty = false := by
        cases signature with
        | nil => exact absurd rfl hne
        | cons a l => rfl
      simp only [hsig, Bool.false_eq_true, if_neg, if_false]
      simp only [List.append_assoc]
      rw [ReadVarInt_WriteVarInt _ _ (by omega) hk]
      simp only [Option.bind_eq_bind, Option.some_bind]
      rw [ReadByteArray_append]
      simp only [Option.some_bind]
      rw [ReadBool_WriteBool]
      simp only [Option.some_bind, Bool.false_eq_true, if_neg, if_false]
      have hss := SaltSignature_ReadImpl_WriteImpl ⟨salt, signature⟩ [] hs1 hs2 hs3
      rw [List.append_nil] at hss
      rw [hss]
      rfl
  · simp only [if_neg hpv] at hshape ⊢
    injection hshape with hsalt hsig
    subst hsalt
    subst hsig
    simp only [List.append_assoc]
    rw [ReadVarInt_WriteVarInt _ _ (by omega) hk]
    simp only [Option.bind_eq_bind, Option.some_bind]
    rw [ReadByteArray_append]
    simp only [Option.some_bind]
    rw [ReadVarInt_WriteVarInt _ _ (by omega) hn]
    simp only [Option.some_bind]
    have hba := ReadByteArray_append nonce []
    rw [List.append_nil] at hba
    rw [hba]
    rfl

/--
C2: above protocol 758 the boolean flag emitted by
`ServerboundKeyPacket::WriteImpl` after the key bytes always matches the
body that follows it: the byte 0x01 (true — has_nonce) is followed
exactly by the VarInt-length-prefixed nonce, and the byte 0x00 (false)
exactly by the embedded SaltSignature.  Concretely, at protocol 760 a
packet with key_bytes [0x01, 0x02], nonce [0xAA] and an empty signature
encodes to [0x02, 0x01, 0x02, 0x01, 0x01, 0xAA].
-/
theorem key_packet_flag_matches_body :
    (∀ (pv : Int) (p : ServerboundKeyPacket), 758 < pv →
       p.WriteImpl pv =
         WriteVarInt p.key_bytes.length ++ p.key_bytes ++
           (if p.salt_signature.signature.isEmpty then
             1 :: (WriteVarInt p.nonce.length ++ p.nonce)
           else
             0 :: p.salt_signature.WriteImpl))
    ∧ ServerboundKeyPacket.WriteImpl 760 ⟨[0x01, 0x02], [0xAA], ⟨0, []⟩⟩ =
        [0x02, 0x01, 0x02, 0x01, 0x01, 0xAA] := by
  constructor
  · intro pv p hpv
    unfold ServerboundKeyPacket.WriteImpl WriteByteArray WriteBool
    rw [if_pos hpv]
    by_cases hsig : p.salt_signature.signature.isEmpty
    · simp [hsig]
    · simp [hsig]
  · rfl

/-- C2 witness: the flag-body correspondence applied at protocol 760 to
the packet of the concrete example. -/
theorem key_packet_flag_matches_body_witness :
    ServerboundKeyPacket.WriteImpl 760 ⟨[0x01, 0x02], [0xAA], ⟨0, []⟩⟩ =
      WriteVarInt (([0x01, 0x02] : List Nat)).length ++ [0x01, 0x02] ++
        (if (SaltSignature.mk 0 []).signature.isEmpty then
          1 :: (WriteVarInt (([0xAA] : List Nat)).length ++ [0xAA])
        else
          0 :: (SaltSignature.mk 0 []).WriteImpl) :=
  key_packet_flag_matches_body.1 760 ⟨[0x01, 0x02], [0xAA], ⟨0, []⟩⟩ (by decide)

/--
C6: amended encode/decode round trip for the three sampled codec types.
Decoding an encoding reproduces the value, and encoding the value decoded
from a well-formed (canonically encodable) byte string reproduces the
string, under the machine-width side conditions the C++ types impose
(`int`/`long long` ranges, byte-sequence lengths below 2 ^ 31 so the
VarInt length prefix is faithful) and — for ServerboundKeyPacket above
protocol 758 — provided the alternative that is not transmitted is
default-valued: when the nonce branch is written (signature empty) the
whole salt-signature is the default ⟨0, []⟩, and when the salt-signature
branch is written the nonce is empty.  Below protocol 759 the
salt-signature member does not exist in C++, modelled as the default.
-/
theorem codec_roundtrip_amended :
    (∀ m : SelectTrade, -2 ^ 31 ≤ m.selected_slot → m.selected_slot < 2 ^ 31 →
       SelectTrade.ReadImpl (SelectTrade.WriteImpl m) = some (m, []))
    ∧
    (∀ s : SaltSignature, -2 ^ 63 ≤ s.salt → s.salt < 2 ^ 63 →
       (s.signature.length : Int) < 2 ^ 31 →
       SaltSignature.ReadImpl s.WriteImpl = some (s, []))
    ∧
    (∀ (pv : Int) (p : ServerboundKeyPacket),
       (p.key_bytes.length : Int) < 2 ^ 31 → (p.nonce.length : Int) < 2 ^ 31 →
       -2 ^ 63 ≤ p.salt_signature.salt → p.salt_signature.salt < 2 ^ 63 →
       (p.salt_signature.signature.length : Int) < 2 ^ 31 →
       (if 758 < pv then
          p.salt_signature = ⟨0, []⟩ ∨ (p.salt_signature.signature ≠ [] ∧ p.nonce = [])
        else p.salt_signature = ⟨0, []⟩) →
       ServerboundKeyPacket.ReadImpl pv (ServerboundKeyPacket.WriteImpl pv p)
         = some (p, []))
    ∧
    (∀ b : List Nat,
       (∃ m : SelectTrade, -2 ^ 31 ≤ m.selected_slot ∧ m.selected_slot < 2 ^ 31 ∧
         SelectTrade.WriteImpl m = b) →
       ∃ m, SelectTrade.ReadImpl b = some (m, []) ∧ SelectTrade.WriteImpl m = b)
    ∧
    (∀ b : List Nat,
       (∃ s : SaltSignature, -2 ^ 63 ≤ s.salt ∧ s.salt < 2 ^ 63 ∧
         (s.signature.length : Int) < 2 ^ 31 ∧ SaltSignature.WriteImpl s = b) →
       ∃ s, SaltSignature.ReadImpl b = some (s, []) ∧ SaltSignature.WriteImpl s = b)
    ∧
    (∀ (pv : Int) (b : List Nat),
       (∃ p : ServerboundKeyPacket, (p.key_bytes.length : Int) < 2 ^ 31 ∧
         (p.nonce.length : Int) < 2 ^ 31 ∧
         -2 ^ 63 ≤ p.salt_signature.salt ∧ p.salt_signature.salt < 2 ^ 63 ∧
         (p.salt_signature.signature.length : Int) < 2 ^ 31 ∧
         (if 758 < pv then
            p.salt_signature = ⟨0, []⟩ ∨
              (p.salt_signature.signature ≠ [] ∧ p.nonce = [])
          else p.salt_signature = ⟨0, []⟩) ∧
         ServerboundKeyPacket.WriteImpl pv p = b) →
       ∃ p, ServerboundKeyPacket.ReadImpl pv b = some (p, []) ∧
         ServerboundKeyPacket.WriteImpl pv p = b) := by
  have hsalt : ∀ s : SaltSignature, -2 ^ 63 ≤ s.salt → s.salt < 2 ^ 63 →
      (s.signature.length : Int) < 2 ^ 31 →
      SaltSignature.ReadImpl s.WriteImpl = some (s, []) := by
    intro s h1 h2 h3
    have h := SaltSignature_ReadImpl_WriteImpl s [] h1 h2 h3
    rw [List.append_nil] at h
    exact h
  refine ⟨SelectTrade_ReadImpl_WriteImpl, hsalt,
    fun pv p h1 h2 h3 h4 h5 h6 =>
      ServerboundKeyPacket_ReadImpl_WriteImpl pv p h1 h2 h3 h4 h5 h6, ?_, ?_, ?_⟩
  · rintro b ⟨m, hm1, hm2, rfl⟩
    exact ⟨m, SelectTrade_ReadImpl_WriteImpl m hm1 hm2, rfl⟩
  · rintro b ⟨s, hs1, hs2, hs3, rfl⟩
    exact ⟨s, hsalt s hs1 hs2 hs3, rfl⟩
  · rintro pv b ⟨p, h1, h2, h3, h4, h5, h6, rfl⟩
    exact ⟨p, ServerboundKeyPacket_ReadImpl_WriteImpl pv p h1 h2 h3 h4 h5 h6, rfl⟩

/--
C6: counterexample to the unamended round trip.  At protocol 760, the
packet with an empty key, nonce [0xAA] and salt-signature ⟨1, []⟩ (the
nonce populated, the signature empty) decodes from its own encoding to a
packet whose salt-signature is ⟨0, []⟩: the salt is never written to the
wire on the nonce branch, so the read-back value differs from the
original.
-/
theorem codec_roundtrip_counterexample :
    ServerboundKeyPacket.ReadImpl 760
        (ServerboundKeyPacket.WriteImpl 760 ⟨[], [0xAA], ⟨1, []⟩⟩) =
      some (⟨[], [0xAA], ⟨0, []⟩⟩, []) ∧
    (⟨[], [0xAA], ⟨0, []⟩⟩ : ServerboundKeyPacket) ≠ ⟨[], [0xAA], ⟨1, []⟩⟩ := by
  refine ⟨rfl, ?_⟩
  decide

/-- C6 witness: the amended round trip applied to SelectTrade with slot 5
and to the concrete key packet of the spec's codec example. -/
theorem codec_roundtrip_amended_witness :
    SelectTrade.ReadImpl (SelectTrade.WriteImpl ⟨5⟩) = some (⟨5⟩, []) ∧
    ServerboundKeyPacket.ReadImpl 760
        (ServerboundKeyPacket.WriteImpl 760 ⟨[0x01, 0x02], [0xAA], ⟨0, []⟩⟩) =
      some (⟨[0x01, 0x02], [0xAA], ⟨0, []⟩⟩, []) :=
  ⟨codec_roundtrip_amended.1 ⟨5⟩ (by decide) (by decide),
   codec_roundtrip_amended.2.2.1 760 ⟨[0x01, 0x02], [0xAA], ⟨0, []⟩⟩ (by decide)
     (by decide) (by decide) (by decide) (by decide)
     (by rw [if_pos (by decide : (758 : Int) < 760)]; exact Or.inl rfl)⟩

end ProtocolCraft

